import Mathlib

/-!
# Verification of the `event` dispatch library (`gdzy1987/event`)

A shallow embedding of `manager.go` (the event manager: registration,
dispatch, catalog, cleanup) together with the event/listener/queue types
the manager uses.  The manager code is translated line by line from
`src/manager.go`; the `Event`/`BasicEvent`, `Listener` and
`ListenerQueue` types live in repository files that are not part of the
provided sources, so those are modelled from the specification (sections
3, 4.1, 4.2 and 9) and carry doc comments saying so.

Conventions of the embedding:
* Go panics are modelled as `Except.error msg`; normal returns as
  `Except.ok`.
* Go `map[string]T` is modelled as an association list observed only
  through `mapLookup`; `mapInsert` and `mapErase` keep lookup semantics
  identical to Go map assignment and `delete`.
* Payload values (`interface{}` in Go) are abstracted to `Nat`; nothing
  in the manager inspects payload values.
* A listener's identity (the Go interface value) is modelled by a `tag`
  field, so that the sequence of listener invocations performed by a
  dispatch is observable: `FireEvent` returns, besides the error and the
  final event state, the list of tags of the listeners it invoked, in
  invocation order.
-/

namespace Event

/-- Payload of an event: a string-keyed mapping. Values are abstracted
to `Nat` (the Go code never inspects them). -/
abbrev Payload := List (String × Nat)

/-- Modelled from the spec (section 3, "Event"): one occurrence being
dispatched — a name, a key/value payload, and an abort flag.  This is
the `BasicEvent` structure of the repository (its file is not among the
provided sources). -/
structure BasicEvent where
  name : String
  payload : Payload
  aborted : Bool
  deriving DecidableEq

/-- Modelled from the spec (section 4.1): `SetName` sets the event
name.  The registration-time validation the spec mentions is performed
by the callers in `manager.go` through `goodName` before this is
reached. -/
def BasicEvent.setName (e : BasicEvent) (n : String) : BasicEvent :=
  { e with name := n }

/-- Modelled from the spec (section 4.1): `Fill(target, payload...)`
bulk-initializes the payload from the given argument.  The `target`
argument is always `nil` at the one call site in `manager.go` and is
not modelled. -/
def BasicEvent.fill (e : BasicEvent) (args : Payload) : BasicEvent :=
  { e with payload := args }

/-- Modelled from the spec (section 3, lifecycle): `reset` clears the
payload, the abort flag and the name before the instance goes back to
the reuse pool. -/
def BasicEvent.reset (_e : BasicEvent) : BasicEvent :=
  { name := "", payload := [], aborted := false }

/-- Modelled from the spec (section 2, "Listener"): a single-method
capability — handle an Event, return success or failure.  `handle`
returns the (possibly mutated) event together with an optional error;
`tag` models the identity of the concrete listener value carried by the
Go interface, making invocation sequences observable. -/
structure Listener where
  tag : Nat
  handle : BasicEvent → BasicEvent × Option String

/-- Modelled from the spec (section 3): immutable pair of an integer
priority and a listener. -/
structure ListenerItem where
  priority : Int
  listener : Listener

/-- Modelled from the spec (sections 3 and 4.2): an ordered sequence of
`ListenerItem`, with push (append), stable sort by descending priority,
and iteration. -/
structure ListenerQueue where
  items : List ListenerItem

/-- Modelled from the spec (section 4.2): `Push` appends an item. -/
def ListenerQueue.push (lq : ListenerQueue) (li : ListenerItem) : ListenerQueue :=
  ⟨lq.items ++ [li]⟩

/-- Insert an item into a list already sorted by descending priority,
after every item of greater-or-equal priority (so the overall sort is
stable). -/
def insertByPriority (x : ListenerItem) : List ListenerItem → List ListenerItem
  | [] => [x]
  | y :: ys => if y.priority < x.priority then x :: y :: ys else y :: insertByPriority x ys

/-- Modelled from the spec (section 4.2): `Sort` stable-sorts the items
by descending priority (higher runs first; ties keep insertion order). -/
def ListenerQueue.sort (lq : ListenerQueue) : ListenerQueue :=
  ⟨lq.items.foldl (fun acc x => insertByPriority x acc) []⟩

/-- Go `map[string]T` lookup on the association-list model. -/
def mapLookup {α : Type} : List (String × α) → String → Option α
  | [], _ => none
  | (k', v) :: m, k => if k' = k then some v else mapLookup m k

/-- Go `delete(m, k)`: every binding of `k` is removed (the maps built
here never bind a key twice, so this coincides with Go's single-binding
removal). -/
def mapErase {α : Type} : List (String × α) → String → List (String × α)
  | [], _ => []
  | (k', v) :: m, k => if k' = k then mapErase m k else (k', v) :: mapErase m k

/-- Go `m[k] = v`: observed through `mapLookup` this is exactly Go map
assignment. -/
def mapInsert {α : Type} (m : List (String × α)) (k : String) (v : α) :
    List (String × α) :=
  (k, v) :: mapErase m k

/-- `Manager` (manager.go lines 13-22): the manager's name, the reuse
pool, the catalog of pre-defined events, the per-name listener queues,
and the listened-names counts.  The `sync.Pool` is modelled from the
spec (section 9, "Object reuse pool") as a free-list of instances. -/
structure Manager where
  name : String
  pool : List BasicEvent
  events : List (String × BasicEvent)
  listeners : List (String × ListenerQueue)
  listenedNames : List (String × Nat)

/-- `pool.Get()`: take an instance off the free-list, or allocate a
fresh zero `BasicEvent` when the list is empty (the pool's `New`
function in `NewManager` returns `&BasicEvent{}`). -/
def poolGet (pool : List BasicEvent) : BasicEvent × List BasicEvent :=
  match pool with
  | [] => (⟨"", [], false⟩, [])
  | e :: rest => (e, rest)

/-- `pool.Put(e)`: return an instance to the free-list. -/
def poolPut (pool : List BasicEvent) (e : BasicEvent) : List BasicEvent :=
  e :: pool

/-- `NewManager` (manager.go lines 27-41). -/
def NewManager (name : String) : Manager :=
  { name := name, pool := [], events := [], listeners := [], listenedNames := [] }

/-- Wildcard event name (manager.go line 10). -/
def Wildcard : String := "*"

/-- Go `unicode.IsSpace`: the White_Space code points recognised by
`strings.TrimSpace`. -/
def goIsSpace (c : Char) : Bool :=
  let n := c.toNat
  (9 ≤ n ∧ n ≤ 13) ∨ n = 32 ∨ n = 0x85 ∨ n = 0xA0 ∨ n = 0x1680 ∨
    (0x2000 ≤ n ∧ n ≤ 0x200A) ∨ n = 0x2028 ∨ n = 0x2029 ∨ n = 0x202F ∨
    n = 0x205F ∨ n = 0x3000

/-- Go `strings.TrimSpace`: drop leading and trailing white space. -/
def trimSpace (s : String) : String :=
  ⟨((s.toList.dropWhile goIsSpace).reverse.dropWhile goIsSpace).reverse⟩

/-- A character of Go's `\w` class: `[0-9A-Za-z_]`. -/
def isWordChar (c : Char) : Bool :=
  c.isAlpha ∨ c.isDigit ∨ c = '_'

/-- A character allowed after the first one by the name pattern:
the class `[\w-.*]` of `goodNameReg` (manager.go line 24). -/
def isNameChar (c : Char) : Bool :=
  isWordChar c ∨ c = '-' ∨ c = '.' ∨ c = '*'

/-- The regular expression `^[a-zA-Z][\w-.*]*$` of `goodNameReg`
(manager.go line 24): a letter followed by word characters, hyphens,
dots or the wildcard marker. -/
def goodNameMatch (s : String) : Bool :=
  match s.toList with
  | [] => false
  | c :: rest => c.isAlpha ∧ rest.all isNameChar

/-- `goodName` (manager.go lines 212-223): trim the name, panic when it
is empty or fails `goodNameReg`, otherwise return the trimmed name. -/
def goodName (name : String) : Except String String :=
  let name := trimSpace name
  if name = "" then
    .error "event: the event name cannot be empty"
  else if goodNameMatch name then
    .ok name
  else
    .error "event: the event name is invalid, must match regex"

/-- `On` (manager.go lines 48-64): validate the name, panic on a nil
listener, wrap `(priority, listener)` and push it onto the name's
queue, creating the queue (and the `listenedNames` count) on the first
registration. -/
def On (em : Manager) (name : String) (listener : Option Listener) (priority : Int) :
    Except String Manager :=
  match goodName name with
  | .error p => .error p
  | .ok name =>
    match listener with
    | none => .error ("event: the event " ++ name ++ " listener cannot be empty")
    | some l =>
      let li : ListenerItem := ⟨priority, l⟩
      match mapLookup em.listeners name with
      | some lq =>
        .ok { em with
              listenedNames :=
                mapInsert em.listenedNames name
                  ((mapLookup em.listenedNames name).getD 0 + 1),
              listeners := mapInsert em.listeners name (lq.push li) }
      | none =>
        .ok { em with
              listenedNames := mapInsert em.listenedNames name 1,
              listeners := mapInsert em.listeners name (ListenerQueue.mk [] |>.push li) }

/-- Result of one listener loop inside `FireEvent`: the error of the
last `Handle` call, the event state, the tags of the listeners invoked
(in order), and whether the loop returned early (error or abort). -/
structure LoopRes where
  err : Option String
  ev : BasicEvent
  calls : List Nat
  stopped : Bool
  deriving DecidableEq

/-- One `for _, li := range lq.Sort().Items()` loop of `FireEvent`
(manager.go lines 106-111, 120-125, 131-136): call each listener's
`Handle` in order and return early when it errors or the event has been
aborted. -/
def callLoop : BasicEvent → List ListenerItem → LoopRes
  | e, [] => ⟨none, e, [], false⟩
  | e, li :: rest =>
    let he := li.listener.handle e
    if he.2.isSome || he.1.aborted then
      ⟨he.2, he.1, [li.listener.tag], true⟩
    else
      let r := callLoop he.1 rest
      ⟨r.err, r.ev, li.listener.tag :: r.calls, r.stopped⟩

/-- `strings.LastIndexByte(name, '.')`: the index of the last dot, or
`-1` when there is none. -/
def lastIndexDot : List Char → Int
  | [] => -1
  | c :: rest =>
    let r := lastIndexDot rest
    if 0 ≤ r then r + 1
    else if c = '.' then 0
    else -1

/-- The group pattern derivation of `FireEvent` (manager.go lines
115-117): `pos := strings.LastIndexByte(name, '.')`, and when
`pos > 0 && pos < len(name)`, the pattern `name[:pos] + Wildcard`.
Returns `none` when the position check fails. -/
def groupNameOf (name : String) : Option String :=
  let cs := name.toList
  let pos : Int := lastIndexDot cs
  if 0 < pos ∧ pos < (cs.length : Int) then
    some (⟨cs.take pos.toNat⟩ ++ Wildcard)
  else
    none

/-- Result of `FireEvent`: the returned error, the final event state,
and the tags of every listener invoked, in invocation order. -/
structure FireRes where
  err : Option String
  ev : BasicEvent
  calls : List Nat
  deriving DecidableEq

/-- The group-wildcard step of `FireEvent` (manager.go lines 113-127):
when a group pattern is derived from the name and a queue exists for
it, run its listener loop; otherwise do nothing. -/
def groupRun (em : Manager) (name : String) (e : BasicEvent) : LoopRes :=
  match groupNameOf name with
  | some gn =>
    match mapLookup em.listeners gn with
    | some glq => callLoop e glq.sort.items
    | none => ⟨none, e, [], false⟩
  | none => ⟨none, e, [], false⟩

/-- The global-wildcard step of `FireEvent` (manager.go lines 129-137):
when a queue exists for the bare wildcard marker, run its listener
loop; otherwise do nothing. -/
def wildRun (em : Manager) (e : BasicEvent) : LoopRes :=
  match mapLookup em.listeners Wildcard with
  | some wlq => callLoop e wlq.sort.items
  | none => ⟨none, e, [], false⟩

/-- `FireEvent` (manager.go lines 97-139): look up the exact-name
queue — returning nil immediately when there is none — then run the
exact listeners, the group-pattern listeners and the global-wildcard
listeners in order, stopping the whole dispatch as soon as a `Handle`
errors or the event is aborted. -/
def FireEvent (em : Manager) (e : BasicEvent) : FireRes :=
  match mapLookup em.listeners e.name with
  | none => ⟨none, e, []⟩
  | some lq =>
    let r1 := callLoop e lq.sort.items
    if r1.stopped then ⟨r1.err, r1.ev, r1.calls⟩
    else
      let r2 := groupRun em e.name r1.ev
      if r2.stopped then ⟨r2.err, r2.ev, r1.calls ++ r2.calls⟩
      else
        let r3 := wildRun em r2.ev
        ⟨r3.err, r3.ev, r1.calls ++ (r2.calls ++ r3.calls)⟩

/-- Result of `Fire`: the returned error, the manager after the call
(pool and catalog state), and the invocation trace of the dispatch. -/
structure FireOut where
  err : Option String
  em : Manager
  calls : List Nat

/-- `Fire` (manager.go lines 67-86): validate the name; dispatch the
catalog event when one exists (the stored instance is shared, so the
mutations listeners make to it persist in the catalog — modelled by
writing the dispatched state back); otherwise take a scratch event from
the pool, set its name, fill its payload, dispatch it, then reset it
and put it back. -/
def Fire (em : Manager) (name : String) (args : Payload) : Except String FireOut :=
  match goodName name with
  | .error p => .error p
  | .ok name =>
    match mapLookup em.events name with
    | some e =>
      let r := FireEvent em e
      .ok ⟨r.err, { em with events := mapInsert em.events name r.ev }, r.calls⟩
    | none =>
      let p := poolGet em.pool
      let e := (p.1.setName name).fill args
      let em' := { em with pool := p.2 }
      let r := FireEvent em' e
      .ok ⟨r.err, { em' with pool := poolPut em'.pool r.ev.reset }, r.calls⟩

/-- `MustFire` (manager.go lines 89-94): `Fire`, but a non-nil error is
escalated to a panic carrying that error. -/
def MustFire (em : Manager) (name : String) (args : Payload) :
    Except String (Manager × List Nat) :=
  match Fire em name args with
  | .error p => .error p
  | .ok r =>
    match r.err with
    | some er => .error er
    | none => .ok (r.em, r.calls)

/-- `HasListeners` (manager.go lines 142-145). -/
def HasListeners (em : Manager) (name : String) : Bool :=
  (mapLookup em.listenedNames name).isSome

/-- `ClearListeners` (manager.go lines 148-154): when the name is in
`listenedNames`, delete both the count entry and the queue; otherwise
do nothing. -/
def ClearListeners (em : Manager) (name : String) : Manager :=
  if (mapLookup em.listenedNames name).isSome then
    { em with
      listenedNames := mapErase em.listenedNames name,
      listeners := mapErase em.listeners name }
  else
    em

/-- `AddEvent` (manager.go lines 161-164): validate the event's own
name and store the event under it, overwriting any prior entry. -/
def AddEvent (em : Manager) (e : BasicEvent) : Except String Manager :=
  match goodName e.name with
  | .error p => .error p
  | .ok n => .ok { em with events := mapInsert em.events n e }

/-- `GetEvent` (manager.go lines 167-170). -/
def GetEvent (em : Manager) (name : String) : Option BasicEvent :=
  mapLookup em.events name

/-- `HasEvent` (manager.go lines 173-176). -/
def HasEvent (em : Manager) (name : String) : Bool :=
  (mapLookup em.events name).isSome

/-- `DelEvent` (manager.go lines 179-183): delete the catalog entry
when present, otherwise do nothing. -/
def DelEvent (em : Manager) (name : String) : Manager :=
  if (mapLookup em.events name).isSome then
    { em with events := mapErase em.events name }
  else
    em

/-- `ClearEvents` (manager.go lines 186-188). -/
def ClearEvents (em : Manager) : Manager :=
  { em with events := [] }

/-- `Clear` (manager.go lines 195-200): reset the manager's name, the
catalog, the listener table and the listened-names table. -/
def Clear (em : Manager) : Manager :=
  { em with name := "", events := [], listeners := [], listenedNames := [] }

/-! ## Association-map lemmas -/

theorem mapLookup_insert_self {α : Type} (m : List (String × α)) (k : String) (v : α) :
    mapLookup (mapInsert m k v) k = some v := by
  simp [mapInsert, mapLookup]

theorem mapLookup_erase_self {α : Type} (m : List (String × α)) (k : String) :
    mapLookup (mapErase m k) k = none := by
  induction m with
  | nil => rfl
  | cons p m ih =>
    obtain ⟨a, b⟩ := p
    by_cases h : a = k
    · simp [mapErase, h, ih]
    · simp [mapErase, mapLookup, h, ih]

theorem mapLookup_erase_ne {α : Type} (m : List (String × α)) (k k' : String)
    (h : k' ≠ k) : mapLookup (mapErase m k) k' = mapLookup m k' := by
  induction m with
  | nil => rfl
  | cons p m ih =>
    obtain ⟨a, b⟩ := p
    by_cases ha : a = k
    · subst ha
      simp [mapErase, mapLookup, Ne.symm h, ih]
    · simp [mapErase, mapLookup, ha, ih]

theorem mapLookup_insert_ne {α : Type} (m : List (String × α)) (k k' : String) (v : α)
    (h : k' ≠ k) : mapLookup (mapInsert m k v) k' = mapLookup m k' := by
  simp [mapInsert, mapLookup, Ne.symm h, mapLookup_erase_ne m k k' h]

/-! ## Listener-loop lemmas -/

/-- Splitting a listener loop: running `xs ++ ys` runs `xs`, and only
when `xs` did not stop early continues with `ys` from the event state
`xs` produced, concatenating the invocation tags. -/
theorem callLoop_append (xs ys : List ListenerItem) (e : BasicEvent) :
    callLoop e (xs ++ ys) =
      (let r := callLoop e xs
       if r.stopped then r
       else
         let s := callLoop r.ev ys
         ⟨s.err, s.ev, r.calls ++ s.calls, s.stopped⟩) := by
  induction xs generalizing e with
  | nil => simp [callLoop]
  | cons li rest ih =>
    simp only [callLoop, List.cons_append]
    by_cases hc : ((li.listener.handle e).2.isSome || (li.listener.handle e).1.aborted) = true
    · simp [hc]
    · by_cases hs : (callLoop (li.listener.handle e).1 rest).stopped = true
      · simp [hc, ih, hs]
      · simp [hc, ih, hs]

/-- A loop that stops early (error or abort) ignores any items appended
after the stopping one. -/
theorem callLoop_append_stop (xs ys : List ListenerItem) (e e1 : BasicEvent)
    (er : Option String) (tags : List Nat)
    (h : callLoop e xs = ⟨er, e1, tags, true⟩) :
    callLoop e (xs ++ ys) = ⟨er, e1, tags, true⟩ := by
  rw [callLoop_append, h]
  simp

/-- A loop that runs to completion continues into any appended items,
accumulating the invocation tags. -/
theorem callLoop_append_clean (xs ys : List ListenerItem) (e e1 : BasicEvent)
    (tags : List Nat)
    (h : callLoop e xs = ⟨none, e1, tags, false⟩) :
    callLoop e (xs ++ ys) =
      ⟨(callLoop e1 ys).err, (callLoop e1 ys).ev,
        tags ++ (callLoop e1 ys).calls, (callLoop e1 ys).stopped⟩ := by
  rw [callLoop_append, h]
  simp

/-- A listener that returns an error stops its loop at once. -/
theorem callLoop_cons_error (li : ListenerItem) (rest : List ListenerItem)
    (e e2 : BasicEvent) (er : String)
    (h : li.listener.handle e = (e2, some er)) :
    callLoop e (li :: rest) = ⟨some er, e2, [li.listener.tag], true⟩ := by
  simp [callLoop, h]

/-- A listener that aborts the event (returning no error) stops its
loop at once. -/
theorem callLoop_cons_abort (li : ListenerItem) (rest : List ListenerItem)
    (e e2 : BasicEvent)
    (h : li.listener.handle e = (e2, none)) (ha : e2.aborted = true) :
    callLoop e (li :: rest) = ⟨none, e2, [li.listener.tag], true⟩ := by
  simp [callLoop, h, ha]

/-! ## Example fixtures

Concrete listeners and managers used by the counterexamples and the
witnesses below.  `hOk` succeeds, `hErr` fails with the error `boom`,
`hAbort` aborts the event; each carries a distinguishing tag. -/

def hOk (t : Nat) : Listener := ⟨t, fun e => (e, none)⟩

def hErr (t : Nat) : Listener := ⟨t, fun e => (e, some "boom")⟩

def hAbort (t : Nat) : Listener := ⟨t, fun e => ({ e with aborted := true }, none)⟩

/-- Unwrap a registration that is known to succeed. -/
def mOf (x : Except String Manager) : Manager :=
  match x with
  | .ok m => m
  | .error _ => NewManager ""

/-- Listener tag 1 on the exact name, tag 2 on the group pattern the
README advertises. -/
def emC1 : Manager :=
  mOf (do
    let m ← On (NewManager "c1") "app.run" (some (hOk 1)) 0
    On m "app.*" (some (hOk 2)) 0)

/-- A single listener on the pattern the code actually derives for
names under `app.`. -/
def emC2 : Manager :=
  mOf (On (NewManager "c2") "app*" (some (hOk 3)) 0)

/-- Tag 9 on the exact name and tag 3 on the derived pattern. -/
def emC2b : Manager :=
  mOf (do
    let m ← On (NewManager "c2b") "app.end" (some (hOk 9)) 0
    On m "app*" (some (hOk 3)) 0)

/-! ## Unfolding lemmas for `Fire` -/

/-- The catalog path of `Fire` (manager.go lines 71-73): when a catalog
event exists under the (validated) name, it is the instance dispatched
by `FireEvent`; the pool is untouched and the payload arguments are not
applied. -/
theorem Fire_catalog (em : Manager) (name n : String) (args : Payload) (ev : BasicEvent)
    (hn : goodName name = .ok n) (hev : mapLookup em.events n = some ev) :
    Fire em name args =
      .ok ⟨(FireEvent em ev).err,
           { em with events := mapInsert em.events n (FireEvent em ev).ev },
           (FireEvent em ev).calls⟩ := by
  simp only [Fire, hn, hev]

/-- The scratch path of `Fire` (manager.go lines 75-85): no catalog
event, so a pooled instance is named, filled, dispatched, reset and
returned to the pool. -/
theorem Fire_scratch (em : Manager) (name n : String) (args : Payload)
    (hn : goodName name = .ok n) (hev : mapLookup em.events n = none) :
    Fire em name args =
      (let p := poolGet em.pool
       let e1 := (p.1.setName n).fill args
       let em1 : Manager := { em with pool := p.2 }
       let r := FireEvent em1 e1
       .ok ⟨r.err, { em1 with pool := poolPut em1.pool r.ev.reset }, r.calls⟩) := by
  simp only [Fire, hn, hev]

/-! ## Claim C1 -/

/-- C1: the claim that firing a dotted name invokes, after the exact
listeners, the listeners registered under the pattern obtained by
truncating at the last dot and appending the wildcard marker (so that
firing `app.run` reaches listeners on `app.*`) is FALSE of the code:
`name[:pos]` excludes the dot itself, so the derived pattern for
`app.run` is `app*`, and with tag 1 on `app.run` and tag 2 on `app.*`,
firing `app.run` invokes only tag 1 — contradicting the comments on
manager.go lines 114 and 117 and the README. -/
theorem fireEvent_group_pattern_bug :
    groupNameOf "app.run" = some "app*" ∧
    (FireEvent emC1 ⟨"app.run", [], false⟩).calls = [1] := by
  constructor
  · rfl
  · rfl

/-! ## Claim C2 -/

/-- C2: the claim that a dispatch step with no queue is skipped and the
later steps are still consulted is FALSE of the code: `FireEvent`
returns as soon as `listeners[name]` is missing (manager.go lines
100-103), so with tag 3 registered on `app*` (the very pattern the code
derives for `app.end`), firing `app.end` invokes nothing; with an
exact-name listener (tag 9) present the same pattern queue IS reached.
The second half of the claim — no listeners anywhere gives a nil error
and no invocations — does hold. -/
theorem fireEvent_missing_exact_queue_bug :
    FireEvent emC2 ⟨"app.end", [], false⟩ = ⟨none, ⟨"app.end", [], false⟩, []⟩ ∧
    (FireEvent emC2b ⟨"app.end", [], false⟩).calls = [9, 3] ∧
    (Fire (NewManager "c2e") "nobody" [("a", 1)]).map FireOut.err = .ok none ∧
    (Fire (NewManager "c2e") "nobody" [("a", 1)]).map FireOut.calls = .ok [] := by
  refine ⟨rfl, rfl, rfl, rfl⟩

/-! ## Claim C3 -/

/-- C3: when any listener of the dispatch returns a non-nil error the
chain stops at once — whether the listener sits in the exact-name, the
group-pattern or the global-wildcard loop, no later listener of that
loop and no later loop runs (the invocation trace ends at the failing
listener) — and that error is the result of `FireEvent`; `Fire` in turn
returns whatever error `FireEvent` produced on the event it resolved,
on both the scratch and the catalog path. -/
theorem fireEvent_error_stops_chain (em : Manager) :
    (∀ (e : BasicEvent) (lq : ListenerQueue) (pre : List ListenerItem)
       (li : ListenerItem) (post : List ListenerItem) (e1 e2 : BasicEvent)
       (tags : List Nat) (er : String),
       mapLookup em.listeners e.name = some lq →
       lq.sort.items = pre ++ li :: post →
       callLoop e pre = ⟨none, e1, tags, false⟩ →
       li.listener.handle e1 = (e2, some er) →
       FireEvent em e = ⟨some er, e2, tags ++ [li.listener.tag]⟩) ∧
    (∀ (e : BasicEvent) (lq : ListenerQueue) (e1 : BasicEvent) (tags1 : List Nat)
       (gn : String) (glq : ListenerQueue) (pre : List ListenerItem)
       (li : ListenerItem) (post : List ListenerItem) (e2 e3 : BasicEvent)
       (tags2 : List Nat) (er : String),
       mapLookup em.listeners e.name = some lq →
       callLoop e lq.sort.items = ⟨none, e1, tags1, false⟩ →
       groupNameOf e.name = some gn →
       mapLookup em.listeners gn = some glq →
       glq.sort.items = pre ++ li :: post →
       callLoop e1 pre = ⟨none, e2, tags2, false⟩ →
       li.listener.handle e2 = (e3, some er) →
       FireEvent em e = ⟨some er, e3, tags1 ++ (tags2 ++ [li.listener.tag])⟩) ∧
    (∀ (e : BasicEvent) (lq : ListenerQueue) (e1 : BasicEvent) (tags1 : List Nat)
       (e2 : BasicEvent) (tags2 : List Nat) (wlq : ListenerQueue)
       (pre : List ListenerItem) (li : ListenerItem) (post : List ListenerItem)
       (e3 e4 : BasicEvent) (tags3 : List Nat) (er : String),
       mapLookup em.listeners e.name = some lq →
       callLoop e lq.sort.items = ⟨none, e1, tags1, false⟩ →
       groupRun em e.name e1 = ⟨none, e2, tags2, false⟩ →
       mapLookup em.listeners Wildcard = some wlq →
       wlq.sort.items = pre ++ li :: post →
       callLoop e2 pre = ⟨none, e3, tags3, false⟩ →
       li.listener.handle e3 = (e4, some er) →
       FireEvent em e = ⟨some er, e4, tags1 ++ (tags2 ++ (tags3 ++ [li.listener.tag]))⟩) ∧
    (∀ (name : String) (args : Payload) (n : String),
       goodName name = .ok n → mapLookup em.events n = none →
       (Fire em name args).map FireOut.err =
         .ok (FireEvent { em with pool := (poolGet em.pool).2 }
                (((poolGet em.pool).1.setName n).fill args)).err) ∧
    (∀ (name : String) (args : Payload) (n : String) (ev : BasicEvent),
       goodName name = .ok n → mapLookup em.events n = some ev →
       (Fire em name args).map FireOut.err = .ok (FireEvent em ev).err) := by
  refine ⟨?_, ?_, ?_, ?_, ?_⟩
  · intro e lq pre li post e1 e2 tags er hlq hitems hpre hli
    have hrun : callLoop e lq.sort.items = ⟨some er, e2, tags ++ [li.listener.tag], true⟩ := by
      rw [hitems, callLoop_append_clean pre (li :: post) e e1 tags hpre,
        callLoop_cons_error li post e1 e2 er hli]
    simp [FireEvent, hlq, hrun]
  · intro e lq e1 tags1 gn glq pre li post e2 e3 tags2 er hlq hex hgn hglq hitems hpre hli
    have hgrun : groupRun em e.name e1 = ⟨some er, e3, tags2 ++ [li.listener.tag], true⟩ := by
      rw [groupRun, hgn]
      simp only [hglq]
      rw [hitems, callLoop_append_clean pre (li :: post) e1 e2 tags2 hpre,
        callLoop_cons_error li post e2 e3 er hli]
    simp [FireEvent, hlq, hex, hgrun]
  · intro e lq e1 tags1 e2 tags2 wlq pre li post e3 e4 tags3 er hlq hex hgr hwlq hitems hpre hli
    have hwrun : wildRun em e2 = ⟨some er, e4, tags3 ++ [li.listener.tag], true⟩ := by
      rw [wildRun]
      simp only [hwlq]
      rw [hitems, callLoop_append_clean pre (li :: post) e2 e3 tags3 hpre,
        callLoop_cons_error li post e3 e4 er hli]
    simp [FireEvent, hlq, hex, hgr, hwrun]
  · intro name args n hn hev
    rw [Fire_scratch em name n args hn hev]
    rfl
  · intro name args n ev hn hev
    rw [Fire_catalog em name n args ev hn hev]
    rfl

/-- Tag 1 succeeds, then tag 2 fails, then tag 5 would run — all at
equal priority on the same name. -/
def emW3 : Manager :=
  mOf (do
    let m ← On (NewManager "w3") "evt1" (some (hOk 1)) 0
    let m ← On m "evt1" (some (hErr 2)) 0
    On m "evt1" (some (hOk 5)) 0)

theorem fireEvent_error_stops_chain_witness :
    FireEvent emW3 ⟨"evt1", [], false⟩ = ⟨some "boom", ⟨"evt1", [], false⟩, [1, 2]⟩ :=
  (fireEvent_error_stops_chain emW3).1 ⟨"evt1", [], false⟩
    ⟨[⟨0, hOk 1⟩, ⟨0, hErr 2⟩, ⟨0, hOk 5⟩]⟩
    [⟨0, hOk 1⟩] ⟨0, hErr 2⟩ [⟨0, hOk 5⟩]
    ⟨"evt1", [], false⟩ ⟨"evt1", [], false⟩ [1] "boom" rfl rfl rfl rfl

/-! ## Claim C4 -/

/-- C4: a listener that sets the abort flag and returns nil stops the
dispatch chain exactly like an error — no later listener of its loop
and no later loop runs — but `FireEvent` returns nil; `Fire` again
returns whatever `FireEvent` returned on the event it resolved, so it
returns nil as well. -/
theorem fireEvent_abort_stops_chain (em : Manager) :
    (∀ (e : BasicEvent) (lq : ListenerQueue) (pre : List ListenerItem)
       (li : ListenerItem) (post : List ListenerItem) (e1 e2 : BasicEvent)
       (tags : List Nat),
       mapLookup em.listeners e.name = some lq →
       lq.sort.items = pre ++ li :: post →
       callLoop e pre = ⟨none, e1, tags, false⟩ →
       li.listener.handle e1 = (e2, none) →
       e2.aborted = true →
       FireEvent em e = ⟨none, e2, tags ++ [li.listener.tag]⟩) ∧
    (∀ (e : BasicEvent) (lq : ListenerQueue) (e1 : BasicEvent) (tags1 : List Nat)
       (gn : String) (glq : ListenerQueue) (pre : List ListenerItem)
       (li : ListenerItem) (post : List ListenerItem) (e2 e3 : BasicEvent)
       (tags2 : List Nat),
       mapLookup em.listeners e.name = some lq →
       callLoop e lq.sort.items = ⟨none, e1, tags1, false⟩ →
       groupNameOf e.name = some gn →
       mapLookup em.listeners gn = some glq →
       glq.sort.items = pre ++ li :: post →
       callLoop e1 pre = ⟨none, e2, tags2, false⟩ →
       li.listener.handle e2 = (e3, none) →
       e3.aborted = true →
       FireEvent em e = ⟨none, e3, tags1 ++ (tags2 ++ [li.listener.tag])⟩) ∧
    (∀ (e : BasicEvent) (lq : ListenerQueue) (e1 : BasicEvent) (tags1 : List Nat)
       (e2 : BasicEvent) (tags2 : List Nat) (wlq : ListenerQueue)
       (pre : List ListenerItem) (li : ListenerItem) (post : List ListenerItem)
       (e3 e4 : BasicEvent) (tags3 : List Nat),
       mapLookup em.listeners e.name = some lq →
       callLoop e lq.sort.items = ⟨none, e1, tags1, false⟩ →
       groupRun em e.name e1 = ⟨none, e2, tags2, false⟩ →
       mapLookup em.listeners Wildcard = some wlq →
       wlq.sort.items = pre ++ li :: post →
       callLoop e2 pre = ⟨none, e3, tags3, false⟩ →
       li.listener.handle e3 = (e4, none) →
       e4.aborted = true →
       FireEvent em e = ⟨none, e4, tags1 ++ (tags2 ++ (tags3 ++ [li.listener.tag]))⟩) ∧
    (∀ (name : String) (args : Payload) (n : String),
       goodName name = .ok n → mapLookup em.events n = none →
       (Fire em name args).map FireOut.err =
         .ok (FireEvent { em with pool := (poolGet em.pool).2 }
                (((poolGet em.pool).1.setName n).fill args)).err) := by
  refine ⟨?_, ?_, ?_, ?_⟩
  · intro e lq pre li post e1 e2 tags hlq hitems hpre hli hab
    have hrun : callLoop e lq.sort.items = ⟨none, e2, tags ++ [li.listener.tag], true⟩ := by
      rw [hitems, callLoop_append_clean pre (li :: post) e e1 tags hpre,
        callLoop_cons_abort li post e1 e2 hli hab]
    simp [FireEvent, hlq, hrun]
  · intro e lq e1 tags1 gn glq pre li post e2 e3 tags2 hlq hex hgn hglq hitems hpre hli hab
    have hgrun : groupRun em e.name e1 = ⟨none, e3, tags2 ++ [li.listener.tag], true⟩ := by
      rw [groupRun, hgn]
      simp only [hglq]
      rw [hitems, callLoop_append_clean pre (li :: post) e1 e2 tags2 hpre,
        callLoop_cons_abort li post e2 e3 hli hab]
    simp [FireEvent, hlq, hex, hgrun]
  · intro e lq e1 tags1 e2 tags2 wlq pre li post e3 e4 tags3 hlq hex hgr hwlq hitems hpre hli hab
    have hwrun : wildRun em e2 = ⟨none, e4, tags3 ++ [li.listener.tag], true⟩ := by
      rw [wildRun]
      simp only [hwlq]
      rw [hitems, callLoop_append_clean pre (li :: post) e2 e3 tags3 hpre,
        callLoop_cons_abort li post e3 e4 hli hab]
    simp [FireEvent, hlq, hex, hgr, hwrun]
  · intro name args n hn hev
    rw [Fire_scratch em name n args hn hev]
    rfl

/-- Tag 3 aborts at priority 5, so tag 4 at priority 0 is never
reached. -/
def emW4 : Manager :=
  mOf (do
    let m ← On (NewManager "w4") "evt2" (some (hAbort 3)) 5
    On m "evt2" (some (hOk 4)) 0)

theorem fireEvent_abort_stops_chain_witness :
    FireEvent emW4 ⟨"evt2", [], false⟩ = ⟨none, ⟨"evt2", [], true⟩, [3]⟩ :=
  (fireEvent_abort_stops_chain emW4).1 ⟨"evt2", [], false⟩
    ⟨[⟨5, hAbort 3⟩, ⟨0, hOk 4⟩]⟩
    [] ⟨5, hAbort 3⟩ [⟨0, hOk 4⟩]
    ⟨"evt2", [], false⟩ ⟨"evt2", [], true⟩ [] rfl rfl rfl rfl rfl

/-! ## Claim C5 -/

/-- C5: with no catalog event under the fired name, `Fire` takes a
scratch event from the pool, sets its name and payload, dispatches it
via `FireEvent`, and — whatever error that dispatch produced — pushes
the reset (empty) instance back onto the pool, so the scratch instance
a later `Fire` acquires carries no payload, no abort flag and no
name. -/
theorem fire_scratch_resets (em : Manager) (name : String) (args : Payload) (n : String)
    (hn : goodName name = .ok n) (hev : mapLookup em.events n = none) :
    (((poolGet em.pool).1.setName n).fill args).name = n ∧
    (((poolGet em.pool).1.setName n).fill args).payload = args ∧
    Fire em name args =
      .ok ⟨(FireEvent { em with pool := (poolGet em.pool).2 }
              (((poolGet em.pool).1.setName n).fill args)).err,
           { em with pool := BasicEvent.mk "" [] false :: (poolGet em.pool).2 },
           (FireEvent { em with pool := (poolGet em.pool).2 }
              (((poolGet em.pool).1.setName n).fill args)).calls⟩ ∧
    (poolGet (BasicEvent.mk "" [] false :: (poolGet em.pool).2)).1 =
      BasicEvent.mk "" [] false := by
  refine ⟨rfl, rfl, ?_, rfl⟩
  rw [Fire_scratch em name n args hn hev]
  rfl

theorem fire_scratch_resets_witness :
    (((poolGet (NewManager "w5").pool).1.setName "e5").fill [("a", 1)]).name = "e5" ∧
    (((poolGet (NewManager "w5").pool).1.setName "e5").fill [("a", 1)]).payload = [("a", 1)] ∧
    Fire (NewManager "w5") "e5" [("a", 1)] =
      .ok ⟨none, { NewManager "w5" with pool := [BasicEvent.mk "" [] false] }, []⟩ ∧
    (poolGet [BasicEvent.mk "" [] false]).1 = BasicEvent.mk "" [] false :=
  fire_scratch_resets (NewManager "w5") "e5" [("a", 1)] "e5" rfl rfl

/-! ## Claim C6 -/

/-- C6: when a catalog event is stored under the fired name, `Fire`
dispatches exactly that stored instance through `FireEvent` — the pool
is untouched and the payload arguments are not applied (the result does
not depend on them) — and `AddEvent` stores an event under its own
validated name, overwriting any prior catalog entry there. -/
theorem fire_catalog_dispatch (em : Manager) (name : String) (args : Payload)
    (n : String) (ev : BasicEvent)
    (hn : goodName name = .ok n) (hev : mapLookup em.events n = some ev) :
    Fire em name args =
      .ok ⟨(FireEvent em ev).err,
           { em with events := mapInsert em.events n (FireEvent em ev).ev },
           (FireEvent em ev).calls⟩ ∧
    ({ em with events := mapInsert em.events n (FireEvent em ev).ev } : Manager).pool
      = em.pool ∧
    (∀ args2 : Payload, Fire em name args2 = Fire em name args) ∧
    (∀ (e : BasicEvent) (n2 : String), goodName e.name = .ok n2 →
       AddEvent em e = .ok { em with events := mapInsert em.events n2 e } ∧
       mapLookup (mapInsert em.events n2 e) n2 = some e) := by
  refine ⟨Fire_catalog em name n args ev hn hev, rfl, ?_, ?_⟩
  · intro args2
    rw [Fire_catalog em name n args ev hn hev, Fire_catalog em name n args2 ev hn hev]
  · intro e n2 hn2
    exact ⟨by simp only [AddEvent, hn2], mapLookup_insert_self em.events n2 e⟩

/-- A manager whose catalog holds one pre-defined event. -/
def emW6 : Manager :=
  mOf (AddEvent (NewManager "w6") ⟨"ev6", [("k", 7)], false⟩)

theorem fire_catalog_dispatch_witness :
    Fire emW6 "ev6" [] =
      .ok ⟨none,
           { emW6 with events := mapInsert emW6.events "ev6" ⟨"ev6", [("k", 7)], false⟩ },
           []⟩ ∧
    ({ emW6 with events := mapInsert emW6.events "ev6" ⟨"ev6", [("k", 7)], false⟩ }
       : Manager).pool = emW6.pool :=
  ⟨(fire_catalog_dispatch emW6 "ev6" [] "ev6" ⟨"ev6", [("k", 7)], false⟩ rfl rfl).1,
   (fire_catalog_dispatch emW6 "ev6" [] "ev6" ⟨"ev6", [("k", 7)], false⟩ rfl rfl).2.1⟩

/-! ## Claim C7 -/

/-- C7 (amended): `On` fails fatally when the name, once surrounding
white space is trimmed, is empty (this covers empty and whitespace-only
names) or fails the pattern, and when the listener is nil; a failure is
a panic, so no listener is stored and the registry is untouched.
Otherwise the `(priority, listener)` item is appended to the trimmed
name's queue, creating the queue and the `listenedNames` entry on the
first registration. -/
theorem on_validation (em : Manager) (name : String) (l : Listener) (p : Int) :
    (trimSpace name = "" → ∃ msg, On em name (some l) p = .error msg) ∧
    (goodNameMatch (trimSpace name) = false → ∃ msg, On em name (some l) p = .error msg) ∧
    (∃ msg, On em name none p = .error msg) ∧
    (∀ n, goodName name = .ok n →
       (mapLookup em.listeners n = none →
          On em name (some l) p =
            .ok { em with
                  listenedNames := mapInsert em.listenedNames n 1,
                  listeners := mapInsert em.listeners n ⟨[⟨p, l⟩]⟩ }) ∧
       (∀ lq, mapLookup em.listeners n = some lq →
          On em name (some l) p =
            .ok { em with
                  listenedNames := mapInsert em.listenedNames n
                    ((mapLookup em.listenedNames n).getD 0 + 1),
                  listeners := mapInsert em.listeners n (lq.push ⟨p, l⟩) })) := by
  refine ⟨?_, ?_, ?_, ?_⟩
  · intro h
    exact ⟨"event: the event name cannot be empty", by simp [On, goodName, h]⟩
  · intro h
    by_cases he : trimSpace name = ""
    · exact ⟨"event: the event name cannot be empty", by simp [On, goodName, he]⟩
    · exact ⟨"event: the event name is invalid, must match regex",
        by simp [On, goodName, he, h]⟩
  · cases hg : goodName name with
    | error msg => exact ⟨msg, by simp [On, hg]⟩
    | ok n =>
      exact ⟨"event: the event " ++ n ++ " listener cannot be empty", by simp [On, hg]⟩
  · intro n hn
    constructor
    · intro hnone
      simp only [On, hn, hnone]
      rfl
    · intro lq hsome
      simp only [On, hn, hsome]

/-- C7 counterexample to the claim as stated: the raw name `app ` (a
trailing blank) fails the pattern, yet `On` accepts it, because
`goodName` trims surrounding white space before matching. -/
theorem on_validation_counterexample :
    goodNameMatch "app " = false ∧
    (On (NewManager "m7") "app " (some (hOk 6)) 0).toOption.isSome = true :=
  ⟨rfl, rfl⟩

theorem on_validation_witness :
    On (NewManager "w7") "evt7" (some (hOk 7)) 2 =
      .ok { NewManager "w7" with
            listenedNames := mapInsert (NewManager "w7").listenedNames "evt7" 1,
            listeners := mapInsert (NewManager "w7").listeners "evt7" ⟨[⟨2, hOk 7⟩]⟩ } :=
  ((on_validation (NewManager "w7") "evt7" (hOk 7) 2).2.2.2 "evt7" rfl).1 rfl

/-! ## Claim C8 -/

/-- A manager state reachable from `NewManager` by successful `On`
registrations, `ClearListeners` calls and `Clear` calls — the operation
sequences the claim quantifies over. -/
inductive Reach : Manager → Prop where
  | new (s : String) : Reach (NewManager s)
  | reg (em em' : Manager) (name : String) (l : Listener) (p : Int) :
      Reach em → On em name (some l) p = .ok em' → Reach em'
  | clearListeners (em : Manager) (name : String) :
      Reach em → Reach (ClearListeners em name)
  | clear (em : Manager) : Reach em → Reach (Clear em)

/-- C8: after any sequence of `On`, `ClearListeners` and `Clear`
operations, a name has a `listenedNames` entry exactly when it has a
`ListenerQueue` in `listeners`; `ClearListeners` removes both together
(so `HasListeners` is false afterwards) and is a no-op for a name that
was never registered. -/
theorem listeners_listenedNames_sync (em : Manager) (name : String) (h : Reach em) :
    (mapLookup em.listenedNames name).isSome = (mapLookup em.listeners name).isSome ∧
    HasListeners (ClearListeners em name) name = false ∧
    (mapLookup em.listenedNames name = none → ClearListeners em name = em) := by
  refine ⟨?_, ?_, ?_⟩
  · induction h with
    | new s => rfl
    | reg em em' name' l p hr hok ih =>
      cases hg : goodName name' with
      | error msg => simp [On, hg] at hok
      | ok n =>
        simp only [On, hg] at hok
        cases hlq : mapLookup em.listeners n with
        | some lq =>
          simp only [hlq] at hok
          obtain rfl := Except.ok.inj hok
          by_cases he : name = n
          · subst he
            rw [mapLookup_insert_self, mapLookup_insert_self]
            rfl
          · rw [mapLookup_insert_ne _ _ _ _ he, mapLookup_insert_ne _ _ _ _ he]
            exact ih
        | none =>
          simp only [hlq] at hok
          obtain rfl := Except.ok.inj hok
          by_cases he : name = n
          · subst he
            rw [mapLookup_insert_self, mapLookup_insert_self]
            rfl
          · rw [mapLookup_insert_ne _ _ _ _ he, mapLookup_insert_ne _ _ _ _ he]
            exact ih
    | clearListeners em name' hr ih =>
      by_cases hs : (mapLookup em.listenedNames name').isSome = true
      · simp only [ClearListeners, hs, if_true]
        by_cases he : name = name'
        · subst he
          rw [mapLookup_erase_self, mapLookup_erase_self]
          rfl
        · rw [mapLookup_erase_ne _ _ _ he, mapLookup_erase_ne _ _ _ he]
          exact ih
      · simp only [ClearListeners, hs, if_false]
        exact ih
    | clear em hr ih => rfl
  · by_cases hs : (mapLookup em.listenedNames name).isSome = true
    · simp [HasListeners, ClearListeners, hs, mapLookup_erase_self]
    · simp only [ClearListeners, hs, if_false]
      simpa [HasListeners] using hs
  · intro h0
    simp [ClearListeners, h0]

/-- One successful registration on `evt8`. -/
def emW8 : Manager :=
  mOf (On (NewManager "w8") "evt8" (some (hOk 8)) 0)

theorem listeners_listenedNames_sync_witness :
    ((mapLookup emW8.listenedNames "evt8").isSome
        = (mapLookup emW8.listeners "evt8").isSome) ∧
    HasListeners (ClearListeners emW8 "evt8") "evt8" = false ∧
    (mapLookup emW8.listenedNames "evt8" = none → ClearListeners emW8 "evt8" = emW8) :=
  listeners_listenedNames_sync emW8 "evt8"
    (Reach.reg (NewManager "w8") emW8 "evt8" (hOk 8) 0 (Reach.new "w8") rfl)

/-! ## Claim C9 -/

/-- C9: `MustFire` panics exactly when `Fire` on the same state fails —
propagating a panic raised inside `Fire` itself, and escalating a
non-nil returned error to a panic carrying that very error value — and
otherwise returns normally with the same resulting manager state and
the same invocation trace as `Fire`. -/
theorem mustFire_panic_spec (em : Manager) (name : String) (args : Payload) :
    (∀ p, Fire em name args = .error p → MustFire em name args = .error p) ∧
    (∀ (er : String) (em2 : Manager) (tr : List Nat),
       Fire em name args = .ok ⟨some er, em2, tr⟩ → MustFire em name args = .error er) ∧
    (∀ (em2 : Manager) (tr : List Nat),
       Fire em name args = .ok ⟨none, em2, tr⟩ → MustFire em name args = .ok (em2, tr)) := by
  refine ⟨?_, ?_, ?_⟩
  · intro p h
    simp [MustFire, h]
  · intro er em2 tr h
    simp [MustFire, h]
  · intro em2 tr h
    simp [MustFire, h]

/-- One failing listener on `evt9`. -/
def emW9 : Manager :=
  mOf (On (NewManager "w9") "evt9" (some (hErr 10)) 0)

theorem mustFire_panic_spec_witness :
    MustFire emW9 "evt9" [] = .error "boom" :=
  (mustFire_panic_spec emW9 "evt9" []).2.1 "boom" _ _ rfl

/-! ## Claim C10 -/

/-- C10: the lookup and cleanup operations perform no name validation
and cannot panic — they are total functions — and on a name they know
nothing about, `HasListeners` and `HasEvent` return false, `GetEvent`
returns not-found, and `ClearListeners` and `DelEvent` leave the
manager unchanged; this holds even for empty, whitespace-only or
pattern-violating names. -/
theorem lookup_ops_total (em : Manager) (name : String)
    (hl : mapLookup em.listenedNames name = none)
    (he : mapLookup em.events name = none) :
    HasListeners em name = false ∧
    ClearListeners em name = em ∧
    GetEvent em name = none ∧
    HasEvent em name = false ∧
    DelEvent em name = em := by
  refine ⟨?_, ?_, ?_, ?_, ?_⟩
  · simp [HasListeners, hl]
  · simp [ClearListeners, hl]
  · simpa [GetEvent] using he
  · simp [HasEvent, he]
  · simp [DelEvent, he]

theorem lookup_ops_total_witness :
    HasListeners (NewManager "w0") " 9#x" = false ∧
    ClearListeners (NewManager "w0") " 9#x" = NewManager "w0" ∧
    GetEvent (NewManager "w0") " 9#x" = none ∧
    HasEvent (NewManager "w0") " 9#x" = false ∧
    DelEvent (NewManager "w0") " 9#x" = NewManager "w0" :=
  lookup_ops_total (NewManager "w0") " 9#x" rfl rfl

end Event
